import Mathlib

/-!
Shallow embedding of the employee time-tracking pipeline from
`src/app/page.tsx`: the tabular decoder inside `onDrop`, the record
normalizer, the `applyFilters` filter engine, and the `timeGapData`
time-gap aggregator.  Cells are modelled as strings (the grids of interest
hold text cells), JS strings as `String`, JS arrays as `List`, and the
result of `new Date(...)` as `Option Int` (seconds on a fixed civil
timeline; `none` models an Invalid Date, whose `getTime()` is `NaN`).
Timestamps are interpreted on a single fixed frame: the source parses both
comparator dates and gap dates as host-local times, so a constant UTC
offset cancels in every difference the code computes.
-/

/-- JS `String.prototype.split` with a one-character separator, on char
lists.  `split` always yields at least one (possibly empty) chunk. -/
def splitChar (sep : Char) : List Char → List (List Char)
  | [] => [[]]
  | c :: cs =>
    if c = sep then [] :: splitChar sep cs
    else
      match splitChar sep cs with
      | [] => [[c]]
      | p :: ps => (c :: p) :: ps

/-- JS `s.split(sep)` for a single-character separator `sep`. -/
def jsSplit (sep : Char) (s : String) : List String :=
  (splitChar sep s.toList).map (fun l => String.mk l)

/-- JS `s.includes(sub)`: substring containment. -/
def strIncludes (s sub : String) : Bool :=
  decide (sub.toList <:+: s.toList)

/-- JS `s.trim()`: strip whitespace from both ends. -/
def jsTrim (s : String) : String :=
  String.mk (((s.toList.dropWhile Char.isWhitespace).reverse.dropWhile
    Char.isWhitespace).reverse)

/-- The test `/^\d+$/.test(code)` from `timeGapData`: the string is
nonempty and every character is an ASCII digit. -/
def codeAllDigits (s : String) : Bool :=
  !s.toList.isEmpty && s.toList.all (fun c => c.isDigit)

/-- Gregorian leap-year test. -/
def isLeap (y : Nat) : Bool :=
  y % 4 = 0 && (y % 100 ≠ 0 || y % 400 = 0)

/-- Days in a Gregorian month (`m` is 1-based). -/
def daysInMonth (y m : Nat) : Nat :=
  if m = 2 then (if isLeap y then 29 else 28)
  else if m = 4 || m = 6 || m = 9 || m = 11 then 30
  else 31

/-- Day count of a civil date on a fixed proleptic-Gregorian timeline
(standard era/year-of-era formula, accurate for years from 1 on; all the
dates this program parses carry four-digit years from its own format). -/
def daysFromCivil (y m d : Nat) : Nat :=
  let yy := if m ≤ 2 then y - 1 else y
  let era := yy / 400
  let yoe := yy % 400
  let mp := (m + 9) % 12
  let doy := (153 * mp + 2) / 5 + (d - 1)
  let doe := yoe * 365 + yoe / 4 - yoe / 100 + doy
  era * 146097 + doe

/-- Seconds on the fixed civil timeline for a date-time. -/
def civilSecs (y mo d hh mi ss : Nat) : Int :=
  (daysFromCivil y mo d : Int) * 86400 + hh * 3600 + mi * 60 + ss

/-- Numeric value of an ASCII digit character. -/
def digitVal (c : Char) : Nat := c.toNat - 48

/-- Two-digit numeral value. -/
def n2 (a b : Char) : Nat := 10 * digitVal a + digitVal b

/-- Four-digit numeral value. -/
def n4 (a b c d : Char) : Nat :=
  1000 * digitVal a + 100 * digitVal b + 10 * digitVal c + digitVal d

/-- The ES ISO date-time parse `new Date("YYYY-MM-DDTHH:MM:SS")`, the only
ISO shape this program constructs.  Out-of-range fields give an Invalid
Date (`none`).  Other host-specific acceptable shapes (date-only,
milliseconds, zone suffixes, the `24:00` edge) are never produced by the
source's `parseDateTime` template and are conservatively invalid here. -/
def jsNewDateIso (s : String) : Option Int :=
  match s.toList with
  | [y1, y2, y3, y4, '-', a, b, '-', c, d, 'T', h1, h2, ':', p1, p2, ':', q1, q2] =>
    if y1.isDigit && y2.isDigit && y3.isDigit && y4.isDigit
        && a.isDigit && b.isDigit && c.isDigit && d.isDigit
        && h1.isDigit && h2.isDigit && p1.isDigit && p2.isDigit
        && q1.isDigit && q2.isDigit then
      let y := n4 y1 y2 y3 y4
      let mo := n2 a b
      let dd := n2 c d
      let hh := n2 h1 h2
      let mi := n2 p1 p2
      let ss := n2 q1 q2
      if 1 ≤ mo && mo ≤ 12 && 1 ≤ dd && dd ≤ daysInMonth y mo
          && hh < 24 && mi < 60 && ss < 60 then
        some (civilSecs y mo dd hh mi ss)
      else none
    else none
  | _ => none

/-- Three-letter month name, matched case-insensitively the way the host's
legacy (non-ISO) date parser matches month words. -/
def monthNum3 (a b c : Char) : Option Nat :=
  let s := String.mk [a.toLower, b.toLower, c.toLower]
  if s = "jan" then some 1 else if s = "feb" then some 2
  else if s = "mar" then some 3 else if s = "apr" then some 4
  else if s = "may" then some 5 else if s = "jun" then some 6
  else if s = "jul" then some 7 else if s = "aug" then some 8
  else if s = "sep" then some 9 else if s = "oct" then some 10
  else if s = "nov" then some 11 else if s = "dec" then some 12
  else none

/-- The host's legacy (non-ISO) parse of `"YYYY-Mon-DD HH:MM:SS"`, the
shape produced by the sort comparator's regex replacement on well-formed
`DD-MMM-YYYY HH:MM:SS` log dates.  Strings of any other shape are
conservatively an Invalid Date here. -/
def jsNewDateLegacy (s : String) : Option Int :=
  match s.toList with
  | [y1, y2, y3, y4, '-', a, b, c, '-', d1, d2, ' ', h1, h2, ':', p1, p2, ':', q1, q2] =>
    if y1.isDigit && y2.isDigit && y3.isDigit && y4.isDigit
        && d1.isDigit && d2.isDigit
        && h1.isDigit && h2.isDigit && p1.isDigit && p2.isDigit
        && q1.isDigit && q2.isDigit then
      match monthNum3 a b c with
      | some mo =>
        let y := n4 y1 y2 y3 y4
        let dd := n2 d1 d2
        let hh := n2 h1 h2
        let mi := n2 p1 p2
        let ss := n2 q1 q2
        if 1 ≤ dd && dd ≤ daysInMonth y mo && hh < 24 && mi < 60 && ss < 60 then
          some (civilSecs y mo dd hh mi ss)
        else none
      | none => none
    else none
  | _ => none

/-- Semantics of `new Date(string)`: the ISO grammar is tried first, then the host's
legacy parser; anything else is an Invalid Date (`none`). -/
def jsNewDate (s : String) : Option Int :=
  (jsNewDateIso s).orElse (fun _ => jsNewDateLegacy s)

/-- The `monthMap` lookup of `parseDateTime`.  A missing key gives JS
`undefined`, which the template literal renders as the text
`"undefined"`. -/
def monthMapStr (m : String) : String :=
  if m = "Jan" then "01" else if m = "Feb" then "02"
  else if m = "Mar" then "03" else if m = "Apr" then "04"
  else if m = "May" then "05" else if m = "Jun" then "06"
  else if m = "Jul" then "07" else if m = "Aug" then "08"
  else if m = "Sep" then "09" else if m = "Oct" then "10"
  else if m = "Nov" then "11" else if m = "Dec" then "12"
  else "undefined"

/-- JS template rendering of a possibly-`undefined` string. -/
def jsUndef (o : Option String) : String := o.getD "undefined"

/-- The `parseDateTime` helper from `timeGapData` (source lines 212-235).  The
`catch { return new Date() }` branch of the source is unreachable: every
operation in the `try` block (string `split`, array destructuring — which
yields `undefined` for missing elements — object lookup with a missing
key, template rendering, and the `Date` constructor) is total in JS and
never throws, so a malformed `logDate` flows through to `new Date` on a
garbled template string and yields an Invalid Date (`none`), not the
current time. -/
def parseDateTime (dateStr : String) : Option Int :=
  let parts := jsSplit ' ' dateStr
  let datePart := parts.getD 0 ""
  let timePart := jsUndef parts[1]?
  let dparts := jsSplit '-' datePart
  let day := dparts.getD 0 ""
  let month := jsUndef dparts[1]?
  let year := jsUndef dparts[2]?
  jsNewDate (year ++ "-" ++ monthMapStr month ++ "-" ++ day ++ "T" ++ timePart)

/-- JS `\w` word character: ASCII letter, digit or underscore. -/
def isWordChar (c : Char) : Bool := c.isAlphanum || c = '_'

/-- One attempted match of the regex `(\d{2})-(\w{3})-(\d{4})` at the head
of the character list; on success returns the `"$3-$2-$1"` replacement and
the unconsumed tail. -/
def tryDateMatch : List Char → Option (List Char × List Char)
  | a :: b :: '-' :: c :: d :: e :: '-' :: f :: g :: p :: q :: rest =>
    if a.isDigit && b.isDigit && isWordChar c && isWordChar d && isWordChar e
        && f.isDigit && g.isDigit && p.isDigit && q.isDigit then
      some ([f, g, p, q, '-', c, d, e, '-', a, b], rest)
    else none
  | _ => none

/-- JS `s.replace(/(\d{2})-(\w{3})-(\d{4})/, "$3-$2-$1")`: replace the
leftmost match, leave the string unchanged when there is none. -/
def replFirstDate : List Char → List Char
  | [] => []
  | x :: xs =>
    match tryDateMatch (x :: xs) with
    | some (rep, rest) => rep ++ rest
    | none => x :: replFirstDate xs

/-- The timestamp a record's `logDate` gets inside the sort comparator:
regex-swap `DD-MMM-YYYY` to `YYYY-MMM-DD`, then `new Date(...)`. -/
def sortKeyParse (s : String) : Option Int :=
  jsNewDate (String.mk (replFirstDate s.toList))

/-- One decoded badge-scan row (`EmployeeRecord` interface). -/
structure EmployeeRecord where
  id : Nat
  logDate : String
  direction : String
  employeeCode : String
  employeeName : String
  company : String
  department : String
deriving DecidableEq, Inhabited

/-- One aggregated (employee, day) summary (`TimeGapData` interface). -/
structure TimeGapData where
  employeeName : String
  employeeCode : String
  firstTime : String
  lastTime : String
  totalGap : String
  recordCount : Nat
deriving DecidableEq, Inhabited

/-- The comparator `(a, b) => dateA.getTime() - dateB.getTime()` as the
boolean order used by a stable sort: an Invalid Date makes the difference
`NaN`, which the sort treats as neither less nor greater, so such pairs
keep their original relative order — the stable host sort then behaves
exactly like a stable merge sort under this predicate. -/
def jsLe (a b : EmployeeRecord) : Bool :=
  match sortKeyParse a.logDate, sortKeyParse b.logDate with
  | some x, some y => decide (x ≤ y)
  | _, _ => true

/-- Insertion step of the stable sort: the incoming element `x` stood
before every element of the already-sorted list in the original order, so
it is placed before the first element it is not strictly greater than. -/
def insertStable (le : α → α → Bool) (x : α) : List α → List α
  | [] => [x]
  | y :: ys => if le x y then x :: y :: ys else y :: insertStable le x ys

/-- The call `records.sort(comparator)` of `Array.prototype.sort`  — required stable since ES2019 —
modelled as a stable sort by the boolean order `le`.  For a comparator
that is a total preorder every stable sort returns the same list, so the
algorithm choice is immaterial; when the comparator is inconsistent
(`NaN` results) the host order is implementation-defined and this is one
conforming choice. -/
def jsSortStable (le : α → α → Bool) : List α → List α
  | [] => []
  | x :: xs => insertStable le x (jsSortStable le xs)

/-- The message of `console.error` when no header row is found. -/
def headerErrMsg : String := "Could not find a \"Log Date\" header in the sheet!"

/-- A sheet row with no cell value; `sheet_to_json` skips such rows when
`blankrows` is unset or `false`, which covers both calls in `onDrop`. -/
def isBlankRow (row : List String) : Bool := row.all (fun c => c == "")

/-- The header-row test of `onDrop` step 2: some cell trims to
`"Log Date"`. -/
def hasLogDate (row : List String) : Bool :=
  row.any (fun c => jsTrim c == "Log Date")

/-- Cell value a data row gets under a header name, following
`sheet_to_json` with a `header` string array: the row object assigns
columns left to right (a duplicated header keeps the rightmost column),
missing cells receive the `defval` of `""`; a name matching no header is
an absent object key, and `String(row[name] || "")` renders it `""`. -/
def fieldValue (headers row : List String) (name : String) : String :=
  match (headers.enum.filter (fun p => p.2 == name)).getLast? with
  | some (j, _) => row.getD j ""
  | none => ""

/-- Step 5 of `onDrop`: one raw row object to a typed record with a
1-based synthetic id. -/
def rowToRecord (headers : List String) (n : Nat) (row : List String) : EmployeeRecord :=
  { id := n
    logDate := fieldValue headers row "Log Date"
    direction := fieldValue headers row "Direction"
    employeeCode := fieldValue headers row "Employee Code"
    employeeName := fieldValue headers row "Employee Name"
    company := fieldValue headers row "Company"
    department := fieldValue headers row "Department" }

/-- The map `jsonData.map((row, i) => ({id: i + 1, ...}))`: number the data rows
from `n` upward. -/
def numberRows (headers : List String) : Nat → List (List String) → List EmployeeRecord
  | _, [] => []
  | n, row :: rest => rowToRecord headers n row :: numberRows headers (n + 1) rest

/-- The tabular decoder of `onDrop` (source lines 57-102) on the sheet
grid.  The first `sheet_to_json` (`header: 1, blankrows: false`) yields
the non-blank rows; `findIndex` locates the header row in that filtered
list.  The second `sheet_to_json` receives `range: headerRowIndex` —
a row index into the sheet — and a `header` string array; per the
`sheet_to_json` contract, when `header` is an array no row is consumed as
a header row, so the first decoded data row is the row at
`headerRowIndex` itself. -/
def decode (grid : List (List String)) : Except String (List EmployeeRecord) :=
  match (grid.filter (fun r => !isBlankRow r)).findIdx? hasLogDate with
  | none => Except.error headerErrMsg
  | some i =>
    Except.ok (numberRows
      (((grid.filter (fun r => !isBlankRow r)).getD i []).map (fun c => jsTrim c)) 1
      ((grid.drop i).filter (fun r => !isBlankRow r)))

/-- The dataset held in component state after a drop: `onDrop` stores the
decoded records, and on a decode error returns early, leaving the initial
empty dataset in place. -/
def datasetAfterDrop (grid : List (List String)) : List EmployeeRecord :=
  match decode grid with
  | Except.ok rs => rs
  | Except.error _ => []

/-- The expression `item.logDate.split(" ")[0]`: the calendar-day part of a log date. -/
def calendarDay (s : String) : String := (jsSplit ' ' s).getD 0 ""

/-- The grouping key template
``${record.employeeName}-${record.employeeCode}-${record.logDate.split(" ")[0]}``. -/
def recordKey (r : EmployeeRecord) : String :=
  r.employeeName ++ "-" ++ r.employeeCode ++ "-" ++ calendarDay r.logDate

/-- One step of the grouping `reduce`: JS object assignment `acc[key]`
either pushes onto the existing entry or appends a fresh key (string keys
containing `-` are never array indices, so object key order is insertion
order). -/
def insertGrouped (k : String) (r : EmployeeRecord) :
    List (String × List EmployeeRecord) → List (String × List EmployeeRecord)
  | [] => [(k, [r])]
  | (k2, g) :: rest =>
    if k2 = k then (k2, g ++ [r]) :: rest
    else (k2, g) :: insertGrouped k r rest

/-- The fold `validRecords.reduce(...)` building `groupedByEmployeeAndDate`,
entries in key-insertion order as `Object.entries` later reads them. -/
def groupedByEmployeeAndDate (l : List EmployeeRecord) :
    List (String × List EmployeeRecord) :=
  l.foldl (fun acc r => insertGrouped (recordKey r) r acc) []

/-- The `totalGap` computation of the size-two-or-more branch (source
lines 237-252): `Math.abs` of the millisecond difference over 1000 and the
`Math.floor` decomposition, on whole-second timestamps, are `Int.natAbs`
and `Nat` division/remainder; if either endpoint's parse is an Invalid
Date every arithmetic step is `NaN` and the template renders
`"NaNh NaNm NaNs"`. -/
def gapString (firstRecord lastRecord : EmployeeRecord) : String :=
  match parseDateTime firstRecord.logDate, parseDateTime lastRecord.logDate with
  | some t1, some t2 =>
    toString ((t2 - t1).natAbs / 3600) ++ "h "
      ++ toString ((t2 - t1).natAbs % 3600 / 60) ++ "m "
      ++ toString ((t2 - t1).natAbs % 60) ++ "s"
  | _, _ => "NaNh NaNm NaNs"

/-- The body of the `Object.entries(...).map(([key, records]) => ...)` in
`timeGapData` (source lines 181-255): split the key on `-` and take the
first two segments as name and code (the JS locals are inlined here),
stably sort the group by comparator timestamp, and emit the summary.  The
group lists always carry at least one record and their keys at least two
hyphens, so the `getD` defaults are never consulted;
`sortedRecords[0]?.logDate || ""` of the size-under-two branch is the
`head?`/`getD` form. -/
def summarize (key : String) (records : List EmployeeRecord) : TimeGapData :=
  if (jsSortStable jsLe records).length < 2 then
    { employeeName := (jsSplit '-' key).getD 0 ""
      employeeCode := (jsSplit '-' key).getD 1 ""
      firstTime := ((jsSortStable jsLe records).head?.map (fun r => r.logDate)).getD ""
      lastTime := ((jsSortStable jsLe records).head?.map (fun r => r.logDate)).getD ""
      totalGap := "0h 0m 0s"
      recordCount := (jsSortStable jsLe records).length }
  else
    { employeeName := (jsSplit '-' key).getD 0 ""
      employeeCode := (jsSplit '-' key).getD 1 ""
      firstTime := ((jsSortStable jsLe records).getD 0 default).logDate
      lastTime := ((jsSortStable jsLe records).getD
        ((jsSortStable jsLe records).length - 1) default).logDate
      totalGap := gapString ((jsSortStable jsLe records).getD 0 default)
        ((jsSortStable jsLe records).getD
          ((jsSortStable jsLe records).length - 1) default)
      recordCount := (jsSortStable jsLe records).length }

/-- The date pre-filter of `timeGapData`: applied only when a date is
selected (JS string truthiness), via `logDate.includes(selectedDate)`. -/
def filterByDate (sel : String) (l : List EmployeeRecord) : List EmployeeRecord :=
  if sel ≠ "" then l.filter (fun r => strIncludes r.logDate sel) else l

/-- The `validRecords` stage: the date-filtered records whose `employeeCode` passes
`/^\d+$/`. -/
def validRecords (sel : String) (l : List EmployeeRecord) : List EmployeeRecord :=
  (filterByDate sel l).filter (fun r => codeAllDigits r.employeeCode)

/-- The `timeGapData` memo (source lines 158-256) as a function of the
`selectedDate` criterion and the `filteredData` record list. -/
def timeGapData (sel : String) (filteredData : List EmployeeRecord) : List TimeGapData :=
  if filteredData.isEmpty then []
  else
    (groupedByEmployeeAndDate (validRecords sel filteredData)).map
      (fun kg => summarize kg.1 kg.2)

/-- The pipeline `onDrop` followed by the summary memo with no filter selected: the
drop handler stores the decoded records as both `data` and `filteredData`
and clears all filter criteria. -/
def pipelineSummaries (grid : List (List String)) : List TimeGapData :=
  timeGapData "" (datasetAfterDrop grid)

/-- The second conditional filter of `applyFilters`: exact equality on
`employeeName` when an employee is selected. -/
def filterByEmployeeName (sel : String) (l : List EmployeeRecord) : List EmployeeRecord :=
  if sel ≠ "" then l.filter (fun r => r.employeeName == sel) else l

/-- The third conditional filter of `applyFilters`: exact equality on
`employeeCode` when a code is selected. -/
def filterByEmployeeCode (sel : String) (l : List EmployeeRecord) : List EmployeeRecord :=
  if sel ≠ "" then l.filter (fun r => r.employeeCode == sel) else l

/-- The handler `applyFilters` (source lines 260-280) over the stored dataset and the
three selected criteria: three successive conditional filters, each
applied only when its criterion is nonempty.  The date step is the same
`logDate.includes(selectedDate)` filter the aggregator reuses. -/
def applyFilters (data : List EmployeeRecord)
    (selDate selEmployee selCode : String) : List EmployeeRecord :=
  filterByEmployeeCode selCode (filterByEmployeeName selEmployee (filterByDate selDate data))

/-- The component state read by the aggregator memo. -/
structure PageState where
  data : List EmployeeRecord
  filteredData : List EmployeeRecord
  selectedDate : String
  selectedEmployee : String
  selectedEmployeeCode : String
deriving DecidableEq

/-- The aggregator memo as a state transformer: computing `timeGapData`
reads `filteredData` and `selectedDate` and performs no state update — the
source's only in-place mutation is `Array.prototype.sort` on the freshly
built group arrays (`acc[key] = []` then `push`), never on `filteredData`,
and no record object field is ever assigned. -/
def timeGapDataMemo (s : PageState) : List TimeGapData × PageState :=
  (timeGapData s.selectedDate s.filteredData, s)

/-- The keys of the grouping object in insertion order: `reduce` adds a
fresh key the first time a record with that key is pushed. -/
def keyList (l : List EmployeeRecord) : List String :=
  l.foldl (fun ks r => if recordKey r ∈ ks then ks else ks ++ [recordKey r]) []

/-! Supporting lemmas. -/

theorem length_insertStable (le : α → α → Bool) (x : α) (l : List α) :
    (insertStable le x l).length = l.length + 1 := by
  induction l with
  | nil => rfl
  | cons y ys ih =>
    simp only [insertStable]
    split <;> simp [ih]

theorem length_jsSortStable (le : α → α → Bool) (l : List α) :
    (jsSortStable le l).length = l.length := by
  induction l with
  | nil => rfl
  | cons x xs ih => simp [jsSortStable, length_insertStable, ih]

theorem mem_insertStable (le : α → α → Bool) (x a : α) (l : List α) :
    a ∈ insertStable le x l ↔ a = x ∨ a ∈ l := by
  induction l with
  | nil => simp [insertStable]
  | cons y ys ih =>
    simp only [insertStable]
    split
    · simp
    · simp only [List.mem_cons, ih]
      tauto

theorem mem_jsSortStable (le : α → α → Bool) (a : α) (l : List α) :
    a ∈ jsSortStable le l ↔ a ∈ l := by
  induction l with
  | nil => simp [jsSortStable]
  | cons x xs ih => simp [jsSortStable, mem_insertStable, ih]

theorem splitChar_ne_nil (sep : Char) (l : List Char) : splitChar sep l ≠ [] := by
  induction l with
  | nil => simp [splitChar]
  | cons c cs ih =>
    simp only [splitChar]
    split
    · simp
    · split <;> simp

theorem splitChar_append_sep (sep : Char) (a rest : List Char) (h : sep ∉ a) :
    splitChar sep (a ++ sep :: rest) = a :: splitChar sep rest := by
  induction a with
  | nil => simp [splitChar]
  | cons c cs ih =>
    have hc : ¬(c = sep) := by
      intro e
      exact h (e ▸ List.mem_cons_self c cs)
    have ih2 := ih (fun hm => h (List.mem_cons_of_mem _ hm))
    simp only [List.cons_append, splitChar, if_neg hc]
    rw [show cs ++ sep :: rest = cs.append (sep :: rest) from rfl] at ih2
    rw [ih2]

theorem stringMk_toList (s : String) : String.mk s.toList = s := rfl

theorem toList_append (s t : String) : (s ++ t).toList = s.toList ++ t.toList :=
  String.data_append s t

theorem jsSplit_key (name code day : String)
    (h1 : '-' ∉ name.toList) (h2 : '-' ∉ code.toList) :
    jsSplit '-' (name ++ "-" ++ code ++ "-" ++ day) =
      name :: code :: jsSplit '-' day := by
  have hdata : (name ++ "-" ++ code ++ "-" ++ day).toList =
      name.toList ++ '-' :: (code.toList ++ '-' :: day.toList) := by
    simp [toList_append]
  unfold jsSplit
  rw [hdata, splitChar_append_sep _ _ _ h1, splitChar_append_sep _ _ _ h2]
  simp [stringMk_toList]

theorem codeAllDigits_no_hyphen {s : String} (h : codeAllDigits s = true) :
    '-' ∉ s.toList := by
  intro hm
  unfold codeAllDigits at h
  simp only [Bool.and_eq_true, List.all_eq_true] at h
  have := h.2 _ hm
  simp [Char.isDigit] at this

theorem numberRows_length (headers : List String) (n : Nat) (l : List (List String)) :
    (numberRows headers n l).length = l.length := by
  induction l generalizing n with
  | nil => rfl
  | cons row rest ih => simp [numberRows, ih]

theorem numberRows_getD (headers : List String) (n : Nat) (l : List (List String))
    (j : Nat) (hj : j < l.length) :
    (numberRows headers n l).getD j default =
      rowToRecord headers (n + j) (l.getD j []) := by
  induction l generalizing n j with
  | nil => simp at hj
  | cons row rest ih =>
    cases j with
    | zero => simp [numberRows]
    | succ j2 =>
      simp only [numberRows, List.getD_cons_succ]
      rw [ih (n + 1) j2 (by simpa using hj)]
      congr 1
      omega

theorem keyList_append_one (l : List EmployeeRecord) (r : EmployeeRecord) :
    keyList (l ++ [r]) =
      if recordKey r ∈ keyList l then keyList l else keyList l ++ [recordKey r] := by
  unfold keyList
  rw [List.foldl_append]
  rfl

theorem grouped_append_one (l : List EmployeeRecord) (r : EmployeeRecord) :
    groupedByEmployeeAndDate (l ++ [r]) =
      insertGrouped (recordKey r) r (groupedByEmployeeAndDate l) := by
  unfold groupedByEmployeeAndDate
  rw [List.foldl_append]
  rfl

theorem mem_keyList (k : String) (l : List EmployeeRecord) :
    k ∈ keyList l ↔ ∃ r ∈ l, recordKey r = k := by
  induction l using List.reverseRecOn with
  | nil => simp [keyList]
  | append_singleton l r ih =>
    rw [keyList_append_one]
    by_cases hm : recordKey r ∈ keyList l
    · rw [if_pos hm]
      simp only [List.mem_append, List.mem_singleton, ih]
      constructor
      · rintro ⟨r2, hr2, hk⟩
        exact ⟨r2, Or.inl hr2, hk⟩
      · rintro ⟨r2, hr2 | hr2, hk⟩
        · exact ⟨r2, hr2, hk⟩
        · subst hr2
          exact ih.mp (hk ▸ hm)
    · rw [if_neg hm]
      simp only [List.mem_append, List.mem_singleton, ih]
      constructor
      · rintro (⟨r2, hr2, hk⟩ | hk)
        · exact ⟨r2, Or.inl hr2, hk⟩
        · exact ⟨r, Or.inr rfl, hk.symm⟩
      · rintro ⟨r2, hr2 | hr2, hk⟩
        · exact Or.inl ⟨r2, hr2, hk⟩
        · subst hr2
          exact Or.inr hk.symm

theorem keyList_nodup (l : List EmployeeRecord) : (keyList l).Nodup := by
  induction l using List.reverseRecOn with
  | nil => simp [keyList]
  | append_singleton l r ih =>
    rw [keyList_append_one]
    by_cases hm : recordKey r ∈ keyList l
    · rw [if_pos hm]
      exact ih
    · rw [if_neg hm]
      simp [List.nodup_append, ih, hm]

theorem insertGrouped_map_not_mem (k : String) (r : EmployeeRecord)
    (ks : List String) (f : String → List EmployeeRecord) (hk : k ∉ ks) :
    insertGrouped k r (ks.map (fun k2 => (k2, f k2))) =
      ks.map (fun k2 => (k2, f k2)) ++ [(k, [r])] := by
  induction ks with
  | nil => rfl
  | cons a ks ih =>
    have ha : ¬(a = k) := by
      intro e
      exact hk (e ▸ List.mem_cons_self a ks)
    simp only [List.map_cons, insertGrouped, if_neg ha, List.cons_append]
    rw [ih (fun hm => hk (List.mem_cons_of_mem _ hm))]

theorem insertGrouped_map_mem (k : String) (r : EmployeeRecord)
    (ks : List String) (f : String → List EmployeeRecord)
    (hk : k ∈ ks) (hnd : ks.Nodup) :
    insertGrouped k r (ks.map (fun k2 => (k2, f k2))) =
      ks.map (fun k2 => (k2, if k2 = k then f k2 ++ [r] else f k2)) := by
  induction ks with
  | nil => cases hk
  | cons a ks ih =>
    by_cases ha : a = k
    · subst ha
      have hnot : a ∉ ks := (List.nodup_cons.mp hnd).1
      simp only [List.map_cons, insertGrouped, eq_self_iff_true, if_true]
      congr 1
      apply List.map_congr_left
      intro k2 hk2
      have hne : ¬(k2 = a) := by
        intro e
        exact hnot (e ▸ hk2)
      rw [if_neg hne]
    · have hk2 : k ∈ ks := by
        rcases List.mem_cons.mp hk with h | h
        · exact absurd h.symm ha
        · exact h
      simp only [List.map_cons, insertGrouped, if_neg ha]
      rw [ih hk2 (List.nodup_cons.mp hnd).2]

theorem grouped_eq_keyList (l : List EmployeeRecord) :
    groupedByEmployeeAndDate l =
      (keyList l).map (fun k => (k, l.filter (fun r => recordKey r == k))) := by
  induction l using List.reverseRecOn with
  | nil => rfl
  | append_singleton l r ih =>
    rw [grouped_append_one, keyList_append_one, ih]
    by_cases hm : recordKey r ∈ keyList l
    · rw [if_pos hm,
        insertGrouped_map_mem (recordKey r) r (keyList l) _ hm (keyList_nodup l)]
      apply List.map_congr_left
      intro k2 hk2
      by_cases he : k2 = recordKey r
      · subst he
        simp [List.filter_append]
      · have hne : ¬(recordKey r = k2) := fun e => he (Eq.symm e)
        simp only [List.filter_append]
        simp [hne, he]
    · rw [if_neg hm,
        insertGrouped_map_not_mem (recordKey r) r (keyList l) _ hm, List.map_append]
      congr 1
      · apply List.map_congr_left
        intro k2 hk2
        have hne : ¬(recordKey r = k2) := by
          intro e
          exact hm (e ▸ hk2)
        simp only [List.filter_append]
        simp [hne]
      · have hnil : l.filter (fun r2 => recordKey r2 == recordKey r) = [] := by
          rw [List.filter_eq_nil_iff]
          intro r2 hr2
          simp only [beq_iff_eq]
          intro e
          exact hm ((mem_keyList _ _).mpr ⟨r2, hr2, e⟩)
        simp [List.filter_append, hnil]

theorem sum_map_add (ks : List String) (f g : String → Nat) :
    (ks.map (fun k => f k + g k)).sum = (ks.map f).sum + (ks.map g).sum := by
  induction ks with
  | nil => rfl
  | cons a ks ih =>
    simp only [List.map_cons, List.sum_cons, ih]
    omega

theorem sum_indicator_one (ks : List String) (a : String)
    (hnd : ks.Nodup) (ha : a ∈ ks) :
    (ks.map (fun k => if a == k then 1 else 0)).sum = 1 := by
  have hfun : (fun k => if a == k then (1 : Nat) else 0)
      = (fun k => if a = k then (1 : Nat) else 0) := by
    funext k
    simp [beq_iff_eq]
  rw [hfun]
  induction ks with
  | nil => cases ha
  | cons b ks ih =>
    by_cases hb : a = b
    · subst hb
      have hnot : a ∉ ks := (List.nodup_cons.mp hnd).1
      have hz : (ks.map (fun k => if a = k then (1 : Nat) else 0)).sum = 0 := by
        apply List.sum_eq_zero
        intro x hx
        rcases List.mem_map.mp hx with ⟨k, hk, hkx⟩
        have hne : ¬(a = k) := by
          intro e
          exact hnot (e ▸ hk)
        rw [if_neg hne] at hkx
        exact hkx.symm
      simp [hz]
    · have ha2 : a ∈ ks := by
        rcases List.mem_cons.mp ha with h | h
        · exact absurd h hb
        · exact h
      simp only [List.map_cons, List.sum_cons, if_neg hb]
      simpa using ih (List.nodup_cons.mp hnd).2 ha2

theorem sum_filter_lengths (ks : List String) (l : List EmployeeRecord)
    (hnd : ks.Nodup) (hcov : ∀ r ∈ l, recordKey r ∈ ks) :
    (ks.map (fun k => (l.filter (fun r => recordKey r == k)).length)).sum = l.length := by
  induction l with
  | nil =>
    apply List.sum_eq_zero
    intro x hx
    rcases List.mem_map.mp hx with ⟨k, _, hkx⟩
    simpa using hkx.symm
  | cons r l ih =>
    have hcov2 : ∀ r2 ∈ l, recordKey r2 ∈ ks := fun r2 h2 =>
      hcov r2 (List.mem_cons_of_mem _ h2)
    have hstep : ∀ k, ((r :: l).filter (fun r2 => recordKey r2 == k)).length =
        (if recordKey r == k then 1 else 0) +
          (l.filter (fun r2 => recordKey r2 == k)).length := by
      intro k
      by_cases hk : recordKey r = k
      · simp [List.filter_cons, hk]
        omega
      · simp [List.filter_cons, hk]
    calc (ks.map (fun k => ((r :: l).filter (fun r2 => recordKey r2 == k)).length)).sum
        = (ks.map (fun k => (if recordKey r == k then 1 else 0) +
            (l.filter (fun r2 => recordKey r2 == k)).length)).sum := by
          congr 1
          exact List.map_congr_left (fun k _ => hstep k)
      _ = (ks.map (fun k => if recordKey r == k then 1 else 0)).sum +
            (ks.map (fun k => (l.filter (fun r2 => recordKey r2 == k)).length)).sum :=
          sum_map_add ks _ _
      _ = 1 + l.length := by
          rw [sum_indicator_one ks (recordKey r) hnd (hcov r (List.mem_cons_self r l)),
            ih hcov2]
      _ = (r :: l).length := by simp [Nat.add_comm]

theorem mem_filterByDate {sel : String} {l : List EmployeeRecord}
    {r : EmployeeRecord} (h : r ∈ filterByDate sel l) : r ∈ l := by
  unfold filterByDate at h
  split at h
  · exact (List.mem_filter.mp h).1
  · exact h

theorem validRecords_eq_filter (sel : String) (l : List EmployeeRecord) :
    validRecords sel l =
      l.filter (fun r => (sel == "" || strIncludes r.logDate sel)
        && codeAllDigits r.employeeCode) := by
  unfold validRecords filterByDate
  by_cases hsel : sel = ""
  · subst hsel
    simp only [ne_eq, not_true_eq_false, if_neg, ite_false]
    apply List.filter_congr
    intro r _
    simp
  · rw [if_pos hsel, List.filter_filter]
    apply List.filter_congr
    intro r _
    have : (sel == "") = false := by
      simpa using hsel
    simp [this, Bool.and_comm]

theorem summarize_recordCount (k : String) (g : List EmployeeRecord) :
    (summarize k g).recordCount = g.length := by
  unfold summarize
  split <;> simp [length_jsSortStable]

theorem summarize_name_code (k : String) (g : List EmployeeRecord) :
    (summarize k g).employeeName = (jsSplit '-' k).getD 0 "" ∧
    (summarize k g).employeeCode = (jsSplit '-' k).getD 1 "" := by
  unfold summarize
  constructor <;> (split <;> rfl)

theorem getD_mem {α : Type} (l : List α) (j : Nat) (d : α) (hj : j < l.length) :
    l.getD j d ∈ l := by
  rw [List.getD_eq_getElem?_getD, List.getElem?_eq_getElem hj]
  exact List.getElem_mem hj

theorem timeGapData_eq (sel : String) (l : List EmployeeRecord) :
    timeGapData sel l =
      (groupedByEmployeeAndDate (validRecords sel l)).map
        (fun kg => summarize kg.1 kg.2) := by
  unfold timeGapData
  split
  · rename_i h
    have h0 : l = [] := List.isEmpty_iff.mp h
    subst h0
    have hv : validRecords sel ([] : List EmployeeRecord) = [] := by
      unfold validRecords filterByDate
      split <;> rfl
    rw [hv]
    rfl
  · rfl

theorem filterByDate_eq (sel : String) (l : List EmployeeRecord) :
    filterByDate sel l =
      l.filter (fun r => sel == "" || strIncludes r.logDate sel) := by
  unfold filterByDate
  by_cases h : sel = ""
  · subst h
    simp
  · rw [if_pos h]
    apply List.filter_congr
    intro r _
    have hb : (sel == "") = false := by simpa using h
    simp [hb]

theorem filterByEmployeeName_eq (sel : String) (l : List EmployeeRecord) :
    filterByEmployeeName sel l =
      l.filter (fun r => sel == "" || r.employeeName == sel) := by
  unfold filterByEmployeeName
  by_cases h : sel = ""
  · subst h
    simp
  · rw [if_pos h]
    apply List.filter_congr
    intro r _
    have hb : (sel == "") = false := by simpa using h
    simp [hb]

theorem filterByEmployeeCode_eq (sel : String) (l : List EmployeeRecord) :
    filterByEmployeeCode sel l =
      l.filter (fun r => sel == "" || r.employeeCode == sel) := by
  unfold filterByEmployeeCode
  by_cases h : sel = ""
  · subst h
    simp
  · rw [if_pos h]
    apply List.filter_congr
    intro r _
    have hb : (sel == "") = false := by simpa using h
    simp [hb]

/-! Claim theorems. -/

/-- C1: the claim states that a `logDate` not matching `DD-MMM-YYYY
HH:MM:SS` is parsed as the invocation's current time.  The code diverges:
its `catch { return new Date() }` handler is unreachable (nothing in the
`try` block throws), so such a record parses to an Invalid Date — a
non-time `NaN` value — and a group containing it renders the gap
`"NaNh NaNm NaNs"`, evaluated here on a two-record group with log dates
`"bad 1"` and `"bad 2"`. -/
theorem C1_unparsable_date_invalid_not_now :
    parseDateTime "bad 1" = none ∧
    timeGapData "" [⟨1, "bad 1", "IN", "7", "E", "", ""⟩,
        ⟨2, "bad 2", "OUT", "7", "E", "", ""⟩] =
      [⟨"E", "7", "bad 1", "bad 2", "NaNh NaNm NaNs", 2⟩] := by
  constructor
  · decide
  · decide

/-- C2 counterexample: on a grid with one banner row, the header row at
index 1 and one data row, the decoder emits two records — the first decoded
from the header row itself (`logDate = "Log Date"`), refuting the claim
that only rows strictly below the header row become records. -/
theorem C2_counterexample :
    decode [["ignore"],
        ["Log Date", "Direction", "Employee Code", "Employee Name", "Company", "Department"],
        ["25-Jun-2025 08:00:00", "IN", "101", "Alice", "Acme", "Ops"]] =
      Except.ok
        [⟨1, "Log Date", "Direction", "Employee Code", "Employee Name", "Company", "Department"⟩,
         ⟨2, "25-Jun-2025 08:00:00", "IN", "101", "Alice", "Acme", "Ops"⟩] := by
  rfl

/-- C2 amended: for every grid without blank rows whose header row is at
index `i`, the decoder emits one record per row at or below the header
row — record `j` is decoded from row `i + j` under the trimmed headers of
row `i`, so the header row itself is the first data record and rows above
the header row never appear. -/
theorem C2_amended_header_row_included (grid : List (List String)) (i : Nat)
    (hnb : ∀ row ∈ grid, isBlankRow row = false)
    (hidx : grid.findIdx? hasLogDate = some i) :
    ∃ recs, decode grid = Except.ok recs ∧
      recs.length = grid.length - i ∧
      ∀ j, j < recs.length →
        recs.getD j default =
          rowToRecord ((grid.getD i []).map (fun c => jsTrim c)) (j + 1)
            (grid.getD (i + j) []) := by
  have hfil : grid.filter (fun r => !isBlankRow r) = grid := by
    rw [List.filter_eq_self]
    intro a ha
    simp [hnb a ha]
  have hfil2 : (grid.drop i).filter (fun r => !isBlankRow r) = grid.drop i := by
    rw [List.filter_eq_self]
    intro a ha
    simp [hnb a (List.mem_of_mem_drop ha)]
  refine ⟨numberRows ((grid.getD i []).map (fun c => jsTrim c)) 1 (grid.drop i), ?_, ?_, ?_⟩
  · unfold decode
    rw [hfil, hidx]
    show Except.ok (numberRows ((grid.getD i []).map (fun c => jsTrim c)) 1
      ((grid.drop i).filter (fun r => !isBlankRow r))) = _
    rw [hfil2]
  · rw [numberRows_length, List.length_drop]
  · intro j hj
    rw [numberRows_length] at hj
    rw [numberRows_getD _ 1 _ j hj, Nat.add_comm 1 j]
    congr 1
    rw [List.getD_eq_getElem?_getD, List.getElem?_drop, ← List.getD_eq_getElem?_getD]

/-- C2 amended witness: a concrete three-row grid with the header row at
index 1. -/
theorem C2_amended_header_row_included_witness :
    (∀ row ∈ [["x"], ["Log Date"], ["a"]], isBlankRow row = false) ∧
    ([["x"], ["Log Date"], ["a"]] : List (List String)).findIdx? hasLogDate = some 1 ∧
    ∃ recs, decode [["x"], ["Log Date"], ["a"]] = Except.ok recs ∧
      recs.length = ([["x"], ["Log Date"], ["a"]] : List (List String)).length - 1 ∧
      ∀ j, j < recs.length →
        recs.getD j default =
          rowToRecord ((([["x"], ["Log Date"], ["a"]] : List (List String)).getD 1 []).map
            (fun c => jsTrim c)) (j + 1)
            (([["x"], ["Log Date"], ["a"]] : List (List String)).getD (1 + j) []) :=
  ⟨by decide, by decide,
    C2_amended_header_row_included _ 1 (by decide) (by decide)⟩

/-- C3: a grid in which no cell trims to `"Log Date"` makes the decoder
return the logged diagnostic (total, no crash) and leaves the dataset
empty. -/
theorem C3_no_header_reports_error_empty (grid : List (List String))
    (h : ∀ row ∈ grid, ∀ c ∈ row, jsTrim c ≠ "Log Date") :
    decode grid = Except.error headerErrMsg ∧ datasetAfterDrop grid = [] := by
  have hnone : (grid.filter (fun r => !isBlankRow r)).findIdx? hasLogDate = none := by
    rw [List.findIdx?_eq_none_iff]
    intro row hrow
    have hrow2 : row ∈ grid := (List.mem_filter.mp hrow).1
    unfold hasLogDate
    rw [List.any_eq_false]
    intro c hc
    simp [h row hrow2 c hc]
  have hdec : decode grid = Except.error headerErrMsg := by
    unfold decode
    rw [hnone]
  refine ⟨hdec, ?_⟩
  unfold datasetAfterDrop
  rw [hdec]

/-- C3 witness: a concrete grid with no `"Log Date"` cell. -/
theorem C3_no_header_reports_error_empty_witness :
    (∀ row ∈ [["a", "b"], ["c"]], ∀ c ∈ row, jsTrim c ≠ "Log Date") ∧
    decode [["a", "b"], ["c"]] = Except.error headerErrMsg ∧
    datasetAfterDrop [["a", "b"], ["c"]] = [] :=
  ⟨by decide, C3_no_header_reports_error_empty _ (by decide)⟩

/-- C4 counterexample: an employee named `"Anne-Marie"` with code `"7"`
is summarised with `employeeName = "Anne"` and `employeeCode = "Marie"` —
the hyphen-joined group key is re-split on `-`, so fields containing the
delimiter are corrupted, refuting the claim for arbitrary characters. -/
theorem C4_counterexample :
    timeGapData "" [⟨1, "25-Jun-2025 08:00:00", "IN", "7", "Anne-Marie", "", ""⟩] =
      [⟨"Anne", "Marie", "25-Jun-2025 08:00:00", "25-Jun-2025 08:00:00", "0h 0m 0s", 1⟩] ∧
    ("Anne" : String) ≠ "Anne-Marie" ∧ ("Marie" : String) ≠ "7" := by
  refine ⟨by decide, by decide, by decide⟩

/-- C4 amended: the emitted name and code are the first two `-`-separated
segments of the group key; they equal the group records' `employeeName`
and `employeeCode` whenever the name contains no hyphen (codes in a group
are all digits, hence hyphen-free). -/
theorem C4_amended_fields_when_no_hyphen (sel : String) (recs : List EmployeeRecord)
    (k : String) (g : List EmployeeRecord)
    (hg : (k, g) ∈ groupedByEmployeeAndDate (validRecords sel recs)) :
    ∀ r ∈ g, '-' ∉ r.employeeName.toList →
      (summarize k g).employeeName = r.employeeName ∧
      (summarize k g).employeeCode = r.employeeCode := by
  intro r hr hname
  rw [grouped_eq_keyList] at hg
  rcases List.mem_map.mp hg with ⟨k2, hk2, hpair⟩
  have hkk : k2 = k := congrArg Prod.fst hpair
  have hgeq : (validRecords sel recs).filter (fun r2 => recordKey r2 == k2) = g :=
    congrArg Prod.snd hpair
  subst hkk
  rw [← hgeq] at hr
  have hkey : recordKey r = k2 := by
    have := (List.mem_filter.mp hr).2
    simpa using this
  have hval : r ∈ validRecords sel recs := (List.mem_filter.mp hr).1
  have hdig : codeAllDigits r.employeeCode = true := by
    unfold validRecords at hval
    exact (List.mem_filter.mp hval).2
  have hcode : '-' ∉ r.employeeCode.toList := codeAllDigits_no_hyphen hdig
  have hsplit : jsSplit '-' k2 =
      r.employeeName :: r.employeeCode :: jsSplit '-' (calendarDay r.logDate) := by
    rw [← hkey]
    unfold recordKey
    exact jsSplit_key _ _ _ hname hcode
  rcases summarize_name_code k2 g with ⟨hn, hc⟩
  rw [hn, hc, hsplit]
  exact ⟨rfl, rfl⟩

/-- C4 amended witness: a hyphen-free employee name round-trips through
the group key. -/
theorem C4_amended_fields_when_no_hyphen_witness :
    (("Bob-7-25-Jun-2025", [⟨1, "25-Jun-2025 08:00:00", "IN", "7", "Bob", "", ""⟩]) ∈
      groupedByEmployeeAndDate
        (validRecords "" [⟨1, "25-Jun-2025 08:00:00", "IN", "7", "Bob", "", ""⟩])) ∧
    ((⟨1, "25-Jun-2025 08:00:00", "IN", "7", "Bob", "", ""⟩ : EmployeeRecord) ∈
      [(⟨1, "25-Jun-2025 08:00:00", "IN", "7", "Bob", "", ""⟩ : EmployeeRecord)]) ∧
    ('-' ∉ ("Bob" : String).toList) ∧
    (summarize "Bob-7-25-Jun-2025"
        [⟨1, "25-Jun-2025 08:00:00", "IN", "7", "Bob", "", ""⟩]).employeeName = "Bob" ∧
    (summarize "Bob-7-25-Jun-2025"
        [⟨1, "25-Jun-2025 08:00:00", "IN", "7", "Bob", "", ""⟩]).employeeCode = "7" :=
  ⟨by decide, by decide, by decide,
    (C4_amended_fields_when_no_hyphen ""
      [⟨1, "25-Jun-2025 08:00:00", "IN", "7", "Bob", "", ""⟩]
      "Bob-7-25-Jun-2025"
      [⟨1, "25-Jun-2025 08:00:00", "IN", "7", "Bob", "", ""⟩]
      (by decide)
      ⟨1, "25-Jun-2025 08:00:00", "IN", "7", "Bob", "", ""⟩
      (by decide) (by decide)).1,
    (C4_amended_fields_when_no_hyphen ""
      [⟨1, "25-Jun-2025 08:00:00", "IN", "7", "Bob", "", ""⟩]
      "Bob-7-25-Jun-2025"
      [⟨1, "25-Jun-2025 08:00:00", "IN", "7", "Bob", "", ""⟩]
      (by decide)
      ⟨1, "25-Jun-2025 08:00:00", "IN", "7", "Bob", "", ""⟩
      (by decide) (by decide)).2⟩

/-- C5: the documented end-to-end scenario — decode the four-row grid,
keep all records (no filters), aggregate — yields exactly the one Alice
summary with gap `"9h 30m 15s"` over two records. -/
theorem C5_scenario_pipeline :
    pipelineSummaries [["ignore"],
        ["Log Date", "Direction", "Employee Code", "Employee Name", "Company", "Department"],
        ["25-Jun-2025 08:00:00", "IN", "101", "Alice", "Acme", "Ops"],
        ["25-Jun-2025 17:30:15", "OUT", "101", "Alice", "Acme", "Ops"]] =
      [⟨"Alice", "101", "25-Jun-2025 08:00:00", "25-Jun-2025 17:30:15", "9h 30m 15s", 2⟩] := by
  decide

/-- C6: `applyFilters` returns exactly the order-preserving filter of the
conjunction of its non-empty criteria — the date by substring containment,
name and code by exact equality; empty criteria impose no constraint, and
with all three empty the input comes back unchanged. -/
theorem C6_applyFilters_conjunction (data : List EmployeeRecord) (a b c : String) :
    applyFilters data a b c =
      data.filter (fun r => (a == "" || strIncludes r.logDate a)
        && ((b == "" || r.employeeName == b) && (c == "" || r.employeeCode == c))) ∧
    applyFilters data "" "" "" = data ∧
    (applyFilters data a b c).Sublist data := by
  have hmain : ∀ (a2 b2 c2 : String), applyFilters data a2 b2 c2 =
      data.filter (fun r => (a2 == "" || strIncludes r.logDate a2)
        && ((b2 == "" || r.employeeName == b2) && (c2 == "" || r.employeeCode == c2))) := by
    intro a2 b2 c2
    unfold applyFilters
    rw [filterByDate_eq, filterByEmployeeName_eq, filterByEmployeeCode_eq,
      List.filter_filter, List.filter_filter]
    apply List.filter_congr
    intro r _
    cases hpa : (a2 == "" || strIncludes r.logDate a2) <;>
      cases hpb : (b2 == "" || r.employeeName == b2) <;>
      cases hpc : (c2 == "" || r.employeeCode == c2) <;>
      rfl
  refine ⟨hmain a b c, ?_, ?_⟩
  · rw [hmain "" "" ""]
    apply List.filter_eq_self.mpr
    intro r _
    rfl
  · rw [hmain a b c]
    exact List.filter_sublist data

/-- C7: the aggregator's digit test removes every record whose
`employeeCode` is not all digits before grouping, so every record of every
group passes the test, and a dataset whose records all fail it produces no
summaries. -/
theorem C7_nondigit_codes_excluded (sel : String) (recs : List EmployeeRecord) :
    (∀ kg ∈ groupedByEmployeeAndDate (validRecords sel recs),
      ∀ r ∈ kg.2, codeAllDigits r.employeeCode = true) ∧
    ((∀ r ∈ recs, codeAllDigits r.employeeCode = false) →
      timeGapData sel recs = []) := by
  constructor
  · intro kg hkg r hr
    rw [grouped_eq_keyList] at hkg
    rcases List.mem_map.mp hkg with ⟨k2, hk2, hpair⟩
    rw [← hpair] at hr
    have hval : r ∈ validRecords sel recs := (List.mem_filter.mp hr).1
    unfold validRecords at hval
    exact (List.mem_filter.mp hval).2
  · intro hall
    have hv : validRecords sel recs = [] := by
      unfold validRecords
      rw [List.filter_eq_nil_iff]
      intro r hrf
      simp [hall r (mem_filterByDate hrf)]
    rw [timeGapData_eq, hv]
    rfl

/-- C7 witness: a dataset whose only record has code `"AB1"` yields zero
summaries. -/
theorem C7_nondigit_codes_excluded_witness :
    (∀ r ∈ [(⟨1, "25-Jun-2025 08:00:00", "IN", "AB1", "Alice", "Acme", "Ops"⟩ : EmployeeRecord)],
      codeAllDigits r.employeeCode = false) ∧
    timeGapData "" [⟨1, "25-Jun-2025 08:00:00", "IN", "AB1", "Alice", "Acme", "Ops"⟩] = [] :=
  ⟨by decide,
    (C7_nondigit_codes_excluded ""
      [⟨1, "25-Jun-2025 08:00:00", "IN", "AB1", "Alice", "Acme", "Ops"⟩]).2 (by decide)⟩

/-- C8: for a group of two or more records whose log dates all parse, the
emitted summary's `totalGap` renders the decomposition of the whole-second
absolute difference between the parsed first and last timestamps of the
sorted group, with `totalSeconds = h*3600 + m*60 + s`, `m < 60`, `s < 60`
and no day component. -/
theorem C8_totalGap_decomposition (sel : String) (recs : List EmployeeRecord)
    (k : String) (g : List EmployeeRecord)
    (hg : (k, g) ∈ groupedByEmployeeAndDate (validRecords sel recs))
    (hlen : 2 ≤ g.length)
    (hparse : ∀ r ∈ g, (parseDateTime r.logDate).isSome = true) :
    summarize k g ∈ timeGapData sel recs ∧
    ∃ t1 t2, parseDateTime ((jsSortStable jsLe g).getD 0 default).logDate = some t1 ∧
      parseDateTime ((jsSortStable jsLe g).getD
        ((jsSortStable jsLe g).length - 1) default).logDate = some t2 ∧
      (summarize k g).totalGap =
        toString ((t2 - t1).natAbs / 3600) ++ "h "
          ++ toString ((t2 - t1).natAbs % 3600 / 60) ++ "m "
          ++ toString ((t2 - t1).natAbs % 60) ++ "s" ∧
      (t2 - t1).natAbs = ((t2 - t1).natAbs / 3600) * 3600
        + ((t2 - t1).natAbs % 3600 / 60) * 60 + (t2 - t1).natAbs % 60 ∧
      (t2 - t1).natAbs % 3600 / 60 < 60 ∧ (t2 - t1).natAbs % 60 < 60 := by
  constructor
  · rw [timeGapData_eq]
    exact List.mem_map_of_mem (fun kg => summarize kg.1 kg.2) hg
  · have hsl : (jsSortStable jsLe g).length = g.length := length_jsSortStable _ _
    have h0 : 0 < (jsSortStable jsLe g).length := by omega
    have hlast : (jsSortStable jsLe g).length - 1 < (jsSortStable jsLe g).length := by omega
    have hm0 : (jsSortStable jsLe g).getD 0 default ∈ g :=
      (mem_jsSortStable _ _ _).mp (getD_mem _ 0 default h0)
    have hmL : (jsSortStable jsLe g).getD
        ((jsSortStable jsLe g).length - 1) default ∈ g :=
      (mem_jsSortStable _ _ _).mp (getD_mem _ _ default hlast)
    rcases Option.isSome_iff_exists.mp (hparse _ hm0) with ⟨t1, ht1⟩
    rcases Option.isSome_iff_exists.mp (hparse _ hmL) with ⟨t2, ht2⟩
    have hgap : (summarize k g).totalGap =
        gapString ((jsSortStable jsLe g).getD 0 default)
          ((jsSortStable jsLe g).getD ((jsSortStable jsLe g).length - 1) default) := by
      unfold summarize
      rw [if_neg (show ¬((jsSortStable jsLe g).length < 2) by omega)]
    refine ⟨t1, t2, ht1, ht2, ?_, by omega, by omega, by omega⟩
    rw [hgap]
    unfold gapString
    rw [ht1, ht2]

/-- C8 witness: the two-record Alice group from the scenario grid. -/
theorem C8_totalGap_decomposition_witness :
    (("Alice-101-25-Jun-2025",
        [(⟨2, "25-Jun-2025 08:00:00", "IN", "101", "Alice", "Acme", "Ops"⟩ : EmployeeRecord),
         ⟨3, "25-Jun-2025 17:30:15", "OUT", "101", "Alice", "Acme", "Ops"⟩]) ∈
      groupedByEmployeeAndDate (validRecords ""
        [⟨2, "25-Jun-2025 08:00:00", "IN", "101", "Alice", "Acme", "Ops"⟩,
         ⟨3, "25-Jun-2025 17:30:15", "OUT", "101", "Alice", "Acme", "Ops"⟩])) ∧
    2 ≤ ([(⟨2, "25-Jun-2025 08:00:00", "IN", "101", "Alice", "Acme", "Ops"⟩ : EmployeeRecord),
         ⟨3, "25-Jun-2025 17:30:15", "OUT", "101", "Alice", "Acme", "Ops"⟩] :
        List EmployeeRecord).length ∧
    (∀ r ∈ [(⟨2, "25-Jun-2025 08:00:00", "IN", "101", "Alice", "Acme", "Ops"⟩ : EmployeeRecord),
         ⟨3, "25-Jun-2025 17:30:15", "OUT", "101", "Alice", "Acme", "Ops"⟩],
      (parseDateTime r.logDate).isSome = true) ∧
    (summarize "Alice-101-25-Jun-2025"
        [⟨2, "25-Jun-2025 08:00:00", "IN", "101", "Alice", "Acme", "Ops"⟩,
         ⟨3, "25-Jun-2025 17:30:15", "OUT", "101", "Alice", "Acme", "Ops"⟩] ∈
      timeGapData ""
        [⟨2, "25-Jun-2025 08:00:00", "IN", "101", "Alice", "Acme", "Ops"⟩,
         ⟨3, "25-Jun-2025 17:30:15", "OUT", "101", "Alice", "Acme", "Ops"⟩]) ∧
    (∃ t1 t2, parseDateTime ((jsSortStable jsLe
        [(⟨2, "25-Jun-2025 08:00:00", "IN", "101", "Alice", "Acme", "Ops"⟩ : EmployeeRecord),
         ⟨3, "25-Jun-2025 17:30:15", "OUT", "101", "Alice", "Acme", "Ops"⟩]).getD 0 default).logDate
          = some t1 ∧
      parseDateTime ((jsSortStable jsLe
        [(⟨2, "25-Jun-2025 08:00:00", "IN", "101", "Alice", "Acme", "Ops"⟩ : EmployeeRecord),
         ⟨3, "25-Jun-2025 17:30:15", "OUT", "101", "Alice", "Acme", "Ops"⟩]).getD
          ((jsSortStable jsLe
        [(⟨2, "25-Jun-2025 08:00:00", "IN", "101", "Alice", "Acme", "Ops"⟩ : EmployeeRecord),
         ⟨3, "25-Jun-2025 17:30:15", "OUT", "101", "Alice", "Acme", "Ops"⟩]).length - 1)
          default).logDate = some t2 ∧
      (summarize "Alice-101-25-Jun-2025"
        [⟨2, "25-Jun-2025 08:00:00", "IN", "101", "Alice", "Acme", "Ops"⟩,
         ⟨3, "25-Jun-2025 17:30:15", "OUT", "101", "Alice", "Acme", "Ops"⟩]).totalGap =
        toString ((t2 - t1).natAbs / 3600) ++ "h "
          ++ toString ((t2 - t1).natAbs % 3600 / 60) ++ "m "
          ++ toString ((t2 - t1).natAbs % 60) ++ "s" ∧
      (t2 - t1).natAbs = ((t2 - t1).natAbs / 3600) * 3600
        + ((t2 - t1).natAbs % 3600 / 60) * 60 + (t2 - t1).natAbs % 60 ∧
      (t2 - t1).natAbs % 3600 / 60 < 60 ∧ (t2 - t1).natAbs % 60 < 60) := by
  refine ⟨by decide, by decide, by decide, ?_⟩
  exact C8_totalGap_decomposition ""
    [⟨2, "25-Jun-2025 08:00:00", "IN", "101", "Alice", "Acme", "Ops"⟩,
     ⟨3, "25-Jun-2025 17:30:15", "OUT", "101", "Alice", "Acme", "Ops"⟩]
    "Alice-101-25-Jun-2025"
    [⟨2, "25-Jun-2025 08:00:00", "IN", "101", "Alice", "Acme", "Ops"⟩,
     ⟨3, "25-Jun-2025 17:30:15", "OUT", "101", "Alice", "Acme", "Ops"⟩]
    (by decide) (by decide) (by decide)

/-- C9: the aggregator's summaries partition the surviving records: every
summary counts at least one record, and the record counts sum to the
number of input records that pass the date criterion (all of them when it
is empty) and have an all-digits `employeeCode`. -/
theorem C9_recordCount_partition (sel : String) (recs : List EmployeeRecord) :
    (∀ s ∈ timeGapData sel recs, 1 ≤ s.recordCount) ∧
    ((timeGapData sel recs).map (fun s => s.recordCount)).sum =
      (recs.filter (fun r => (sel == "" || strIncludes r.logDate sel)
        && codeAllDigits r.employeeCode)).length := by
  have hmap : timeGapData sel recs = (keyList (validRecords sel recs)).map
      (fun k => summarize k
        ((validRecords sel recs).filter (fun r => recordKey r == k))) := by
    rw [timeGapData_eq, grouped_eq_keyList, List.map_map]
    rfl
  constructor
  · intro s hs
    rw [hmap] at hs
    rcases List.mem_map.mp hs with ⟨k, hk, hsk⟩
    rcases (mem_keyList k _).mp hk with ⟨r, hr, hrk⟩
    have hrmem : r ∈ (validRecords sel recs).filter (fun r2 => recordKey r2 == k) :=
      List.mem_filter.mpr ⟨hr, by simp [hrk]⟩
    have hpos : 0 < ((validRecords sel recs).filter
        (fun r2 => recordKey r2 == k)).length := List.length_pos_of_mem hrmem
    rw [← hsk, summarize_recordCount]
    omega
  · rw [hmap, List.map_map]
    have hc : (keyList (validRecords sel recs)).map
        ((fun s => s.recordCount) ∘ (fun k => summarize k
          ((validRecords sel recs).filter (fun r => recordKey r == k)))) =
        (keyList (validRecords sel recs)).map
          (fun k => ((validRecords sel recs).filter
            (fun r => recordKey r == k)).length) :=
      List.map_congr_left (fun k _ => summarize_recordCount k _)
    rw [hc, sum_filter_lengths _ _ (keyList_nodup _)
      (fun r hr => (mem_keyList _ _).mpr ⟨r, hr, rfl⟩), ← validRecords_eq_filter]

/-- C9 witness: a one-record dataset has one summary of count one, and the
counts sum to the one surviving record. -/
theorem C9_recordCount_partition_witness :
    1 ≤ (TimeGapData.recordCount
      ⟨"Alice", "101", "25-Jun-2025 08:00:00", "25-Jun-2025 08:00:00", "0h 0m 0s", 1⟩) ∧
    ((timeGapData ""
        [⟨1, "25-Jun-2025 08:00:00", "IN", "101", "Alice", "Acme", "Ops"⟩]).map
      (fun s => s.recordCount)).sum =
      (([⟨1, "25-Jun-2025 08:00:00", "IN", "101", "Alice", "Acme", "Ops"⟩] :
          List EmployeeRecord).filter
        (fun r => (("" : String) == "" || strIncludes r.logDate "")
          && codeAllDigits r.employeeCode)).length :=
  ⟨(C9_recordCount_partition ""
      [⟨1, "25-Jun-2025 08:00:00", "IN", "101", "Alice", "Acme", "Ops"⟩]).1
    ⟨"Alice", "101", "25-Jun-2025 08:00:00", "25-Jun-2025 08:00:00", "0h 0m 0s", 1⟩
    (by decide),
   (C9_recordCount_partition ""
      [⟨1, "25-Jun-2025 08:00:00", "IN", "101", "Alice", "Acme", "Ops"⟩]).2⟩

/-- C10: the aggregator memo reads the state and never updates it: the
state after computing the summaries is the input state, so `filteredData`
keeps its length, order and every record's fields.  In the source the only
in-place mutation is the `sort` of freshly built group arrays, never of
`filteredData`, and no record field is assigned. -/
theorem C10_aggregator_preserves_input (s : PageState) :
    (timeGapDataMemo s).2 = s ∧
    (timeGapDataMemo s).2.filteredData = s.filteredData ∧
    (timeGapDataMemo s).1 = timeGapData s.selectedDate s.filteredData :=
  ⟨rfl, rfl, rfl⟩
